import Mathlib

/-!
Verification of the quote-card incremental build pipeline (Go sources:
`internal/build/build.go`, `internal/quotes/quotes.go`, `internal/render/render.go`,
`internal/manifest/manifest.go`, `internal/util`).

The Go code is shallowly embedded: pure functions become Lean functions, the
filesystem effects of `build.Execute` are recorded in an explicit `Outcome`
record (which artifacts were rendered, which deletions were attempted, what
manifest was persisted), and external collaborators (YAML parsing, markdown
rendering, `net/url`, font metrics, SHA-256) are modelled at their interface
boundary, as the specification prescribes.
-/

namespace QuoteCards

/-! ## String utilities

Small structurally-recursive string helpers (splitting, trimming, joining)
used by the embeddings of `strings.Fields`, `strings.Trim`, `strings.Join`
and the URL splitting.  They operate on `List Char` so that every definition
reduces in the kernel. -/

/-- Join a list of strings with a separator; model of Go `strings.Join`. -/
def joinSep (sep : String) : List String → String
  | [] => ""
  | [x] => x
  | x :: y :: xs => x ++ sep ++ joinSep sep (y :: xs)

/-- Split a character list at the first character satisfying `p`:
returns the prefix before it and the remainder starting with it. -/
def breakOnChar (p : Char → Bool) : List Char → List Char × List Char
  | [] => ([], [])
  | c :: cs =>
    if p c then ([], c :: cs)
    else
      let (pre, post) := breakOnChar p cs
      (c :: pre, post)

/-- Group a character list into maximal runs of characters not satisfying `p`
(the runs are the "fields" of Go `strings.FieldsFunc`); `cur` is the
reversed current run. -/
def fieldsAux (p : Char → Bool) (cur : List Char) : List Char → List (List Char)
  | [] => if cur = [] then [] else [cur.reverse]
  | c :: cs =>
    if p c then
      if cur = [] then fieldsAux p [] cs else cur.reverse :: fieldsAux p [] cs
    else fieldsAux p (c :: cur) cs

/-- Model of Go `strings.Fields`: maximal whitespace-separated substrings. -/
def fields (s : String) : List String :=
  (fieldsAux Char.isWhitespace [] s.toList).map List.asString

/-- Model of `util.NormalizeWhitespace`: collapse internal whitespace runs to
single spaces and trim the ends (`strings.Join(strings.Fields(v), " ")`). -/
def normalizeWhitespace (value : String) : String :=
  joinSep " " (fields value)

/-- Model of Go `strings.TrimSpace`. -/
def trimSpace (s : String) : String :=
  ((s.toList.dropWhile Char.isWhitespace).reverse.dropWhile Char.isWhitespace).reverse.asString

/-- Model of `strings.Trim(s, "/")`: strip `/` characters from both ends. -/
def trimSlashes (s : String) : String :=
  ((s.toList.dropWhile (· = '/')).reverse.dropWhile (· = '/')).reverse.asString

/-- Model of `strings.TrimSuffix(s, "/")`: drop one trailing slash if present. -/
def trimOneTrailingSlash (s : String) : String :=
  match s.toList.reverse with
  | [] => s
  | c :: rest => if c = '/' then rest.reverse.asString else s

/-- Whether the final character of a string is a slash. -/
def endsWithSlash (s : String) : Bool :=
  match s.toList.reverse with
  | [] => false
  | c :: _ => c = '/'

/-- Lexicographic (codepoint, equivalently UTF-8 byte) order on character
lists; the order Go compares strings by. -/
def leChars : List Char → List Char → Bool
  | [], _ => true
  | _ :: _, [] => false
  | a :: as, b :: bs => decide (a < b) || (decide (a = b) && leChars as bs)

/-- Byte-lexicographic string order (`a <= b` on Go strings). -/
def leString (a b : String) : Prop :=
  leChars a.data b.data = true

instance : DecidableRel leString :=
  fun a b => inferInstanceAs (Decidable (leChars a.data b.data = true))

/-! ## Hashing model

`util.HashJSON` serialises a `[]string` to JSON and takes its SHA-256.  JSON
serialisation of a string list is injective and SHA-256 is relied on by the
build precisely for collision resistance (the specification calls this out),
so the composite is modelled as an ideal injective hash: a fingerprint *is*
the canonical input tuple.  Two fingerprints are equal exactly when the
hashed tuples are equal. -/

abbrev Hash := List String

/-- Model of `util.HashJSON` on a string list (ideal collision-free hash). -/
def HashJSON (parts : List String) : Hash := parts

/-- Model of `util.HashStrings` (which is `HashJSON` on its argument list). -/
def HashStrings (parts : List String) : Hash := HashJSON parts

/-! ## Render/global version constants (`build.go` lines 21-25, 102-105)

The embedded font bytes and template strings are opaque assets; their
`util.HashBytes` digests are modelled as opaque distinct string constants. -/

def cardRenderVersion : String := "20240505"
def wrapperRenderVersion : String := "20240505"
def sourceRenderVersion : String := "20240505"

/-- Digest of the embedded Atkinson Hyperlegible regular font bytes (opaque). -/
def atkinsonRegularDigest : String := "digest-atkinson-regular"
/-- Digest of the embedded Atkinson Hyperlegible bold font bytes (opaque). -/
def atkinsonBoldDigest : String := "digest-atkinson-bold"
/-- `fontsHash := util.HashStrings(HashBytes(regular), HashBytes(bold))`. -/
def fontsHash : Hash := HashStrings [atkinsonRegularDigest, atkinsonBoldDigest]
/-- Digest of `fontsHash` when it is nested inside `cardRenderHash` (opaque). -/
def fontsDigest : String := "digest-fonts"
/-- `cardRenderHash := util.HashStrings(cardRenderVersion, fontsHash)`. -/
def cardRenderHash : Hash := HashStrings [cardRenderVersion, fontsDigest]
/-- `wrapperTemplateHash := util.HashBytes(WrapperTemplate)` (opaque asset). -/
def wrapperTemplateHash : Hash := HashStrings ["digest-wrapper-template"]
/-- `sourceTemplateHash := util.HashBytes(SourceTemplate)` (opaque asset). -/
def sourceTemplateHash : Hash := HashStrings ["digest-source-template"]

/-! ## Data model -/

/-- Embedding of `quotes.Quote`.  Go's `*time.Time` is modelled as
`Option Int` (Unix seconds, UTC); sub-second precision is dropped, matching
both uses in the build (`time.Unix()` ordering and RFC-3339 second-resolution
formatting). -/
structure Quote where
  id : String
  quote : String
  name : String
  url : String
  normalizedURL : String
  articleTitle : String
  sourceDomain : String
  articleSlug : String
  createdAt : Option Int
  tags : List String
  bodyHTML : String
  location : String
deriving DecidableEq, Repr

/-- Embedding of `build.Config`.  `RootDir` only prefixes output paths and is
omitted: paths in the model are root-relative. -/
structure Config where
  basePath : String
  siteOrigin : String
  cardVersion : Option String
  force : Bool
deriving DecidableEq, Repr

/-- Embedding of `manifest.QuoteEntry`. -/
structure QuoteEntry where
  cardHash : Hash
  wrapperHash : Hash
  groupItemHash : Hash
  sourceKey : String
  sourceDomain : String
  articleSlug : String
deriving DecidableEq, Repr

/-- Embedding of `manifest.Manifest`.  `GeneratedAt` is stamped by
`manifest.Save` from the wall clock and is excluded from the model; manifest
comparisons in the claims are explicitly modulo that timestamp.  The Go
`map[string]QuoteEntry` is modelled as an association list with unique keys
maintained by `upsertEntry`. -/
structure Manifest where
  version : Nat
  cardVersion : Option String
  cardRenderVersion : String
  cardRenderHash : Hash
  fontsHash : Hash
  wrapperRenderVersion : String
  wrapperTemplateHash : Hash
  sourceRenderVersion : String
  sourceTemplateHash : Hash
  quotes : List (String × QuoteEntry)
deriving DecidableEq, Repr

/-- The zero value of Go `manifest.Manifest` ("empty-but-valid" manifest). -/
def emptyManifest : Manifest :=
  { version := 0, cardVersion := none, cardRenderVersion := "", cardRenderHash := []
  , fontsHash := [], wrapperRenderVersion := "", wrapperTemplateHash := []
  , sourceRenderVersion := "", sourceTemplateHash := [], quotes := [] }

/-! ## RFC 3339 formatting (`q.CreatedAt.UTC().Format(time.RFC3339)`)

Civil-calendar conversion from Unix seconds (Howard Hinnant's algorithm; it
is what Go's `time` package computes for UTC). -/

def pad2 (n : Nat) : String :=
  if n < 10 then "0" ++ toString n else toString n

def pad4 (n : Nat) : String :=
  if n < 10 then "000" ++ toString n
  else if n < 100 then "00" ++ toString n
  else if n < 1000 then "0" ++ toString n
  else toString n

/-- Convert a day count since 1970-01-01 to a civil (year, month, day). -/
def civilFromDays (z0 : Int) : Int × Nat × Nat :=
  let z := z0 + 719468
  let era : Int := z.fdiv 146097
  let doe : Nat := (z - era * 146097).toNat
  let yoe : Nat := (doe - doe / 1460 + doe / 36524 - doe / 146096) / 365
  let y : Int := (yoe : Int) + era * 400
  let doy : Nat := doe - (365 * yoe + yoe / 4 - yoe / 100)
  let mp : Nat := (5 * doy + 2) / 153
  let d : Nat := doy - (153 * mp + 2) / 5 + 1
  let m : Nat := if mp < 10 then mp + 3 else mp - 9
  (if m ≤ 2 then y + 1 else y, m, d)

/-- Format Unix seconds as an RFC 3339 UTC timestamp (`2006-01-02T15:04:05Z`). -/
def formatRFC3339 (t : Int) : String :=
  let days := t.fdiv 86400
  let secs := (t - days * 86400).toNat
  let (y, m, d) := civilFromDays days
  pad4 y.toNat ++ "-" ++ pad2 m ++ "-" ++ pad2 d ++ "T" ++
    pad2 (secs / 3600) ++ ":" ++ pad2 (secs % 3600 / 60) ++ ":" ++ pad2 (secs % 60) ++ "Z"

/-! ## Fingerprinting (`build.buildManifestEntry`, `build.buildGroupKey`) -/

/-- Model of `sort.Strings`: ascending lexicographic sort. -/
def sortStrings (l : List String) : List String :=
  l.insertionSort leString

/-- `buildGroupKey` (`build.go` line 341): `fmt.Sprintf("%s__%s", domain, slug)`. -/
def buildGroupKey (q : Quote) : String :=
  q.sourceDomain ++ "__" ++ q.articleSlug

/-- Embedding of `build.buildManifestEntry` (`build.go` lines 283-339). -/
def buildManifestEntry (q : Quote) (groupKey : String) (cfg : Config) : QuoteEntry :=
  let tags := sortStrings q.tags
  let tagsJoined := joinSep "|" tags
  let created := match q.createdAt with
    | none => ""
    | some t => formatRFC3339 t
  let cardVersion := match cfg.cardVersion with
    | none => ""
    | some v => v
  { cardHash := HashJSON [cardRenderVersion, q.quote, q.name, tagsJoined]
  , wrapperHash := HashJSON
      [wrapperRenderVersion, cfg.basePath, cfg.siteOrigin, cardVersion,
       q.quote, q.name, q.articleTitle, q.url, q.sourceDomain]
  , groupItemHash := HashJSON
      [sourceRenderVersion, cfg.basePath, q.id, q.quote, q.name, q.bodyHTML,
       q.url, q.articleTitle, q.sourceDomain, q.articleSlug, created, tagsJoined]
  , sourceKey := groupKey
  , sourceDomain := q.sourceDomain
  , articleSlug := q.articleSlug }

/-- Shorthand: the manifest entry the build computes for a current record. -/
def entryOf (cfg : Config) (q : Quote) : QuoteEntry :=
  buildManifestEntry q (buildGroupKey q) cfg

/-- Embedding of `build.equalStringPtr` (`build.go` lines 526-534); `nil`
string pointers are modelled as `none`. -/
def equalStringPtr : Option String → Option String → Bool
  | none, none => true
  | some a, some b => decide (a = b)
  | _, _ => false

/-- Embedding of `build.timeValue` (`build.go` lines 519-524): a missing
timestamp sorts as Unix second `0`. -/
def timeValue : Option Int → Int
  | none => 0
  | some t => t

/-! ## Manifest map operations

The Go `map[string]QuoteEntry` is embedded as an association list;
`upsertEntry` gives it Go-map assignment semantics (overwrite existing key,
otherwise add) and `lookupEntry` is map indexing. -/

/-- Map lookup `manifestQuotes[id]`. -/
def lookupEntry (m : List (String × QuoteEntry)) (id : String) : Option QuoteEntry :=
  (m.find? (fun p => p.1 = id)).map (·.2)

/-- Map assignment `m[id] = e`. -/
def upsertEntry (m : List (String × QuoteEntry)) (id : String) (e : QuoteEntry) :
    List (String × QuoteEntry) :=
  if m.any (fun p => p.1 = id) then
    m.map (fun p => if p.1 = id then (id, e) else p)
  else m ++ [(id, e)]

/-- The `nextManifestQuotes` map assembled in the first loop of
`build.Execute` (lines 131-173): every current record's entry keyed by id. -/
def nextQuotes (cfg : Config) (quoteList : List Quote) : List (String × QuoteEntry) :=
  quoteList.foldl (fun m q => upsertEntry m q.id (entryOf cfg q)) []

/-! ## Dirty-set computation (`build.Execute` lines 107-183) -/

/-- `manifestQuotes`: the previous entry map, empty when no manifest. -/
def manifestQuotesOf : Option Manifest → List (String × QuoteEntry)
  | none => []
  | some m => m.quotes

/-- `prevCardVersion`: card version recorded by the previous run, if any. -/
def prevCardVersionOf : Option Manifest → Option String
  | none => none
  | some m => m.cardVersion

/-- `cardRenderChanged := cfg.Force || man == nil || man.CardRenderHash != cardRenderHash`. -/
def cardRenderChanged (cfg : Config) (man : Option Manifest) : Bool :=
  cfg.force || (match man with
    | none => true
    | some m => decide (m.cardRenderHash ≠ cardRenderHash))

/-- `wrapperTemplateChanged := cfg.Force || man == nil || man.WrapperTemplateHash != wrapperTemplateHash`. -/
def wrapperTemplateChanged (cfg : Config) (man : Option Manifest) : Bool :=
  cfg.force || (match man with
    | none => true
    | some m => decide (m.wrapperTemplateHash ≠ wrapperTemplateHash))

/-- `wrapperRenderChanged := cfg.Force || man == nil || man.WrapperRenderVersion != wrapperRenderVersion`. -/
def wrapperRenderChanged (cfg : Config) (man : Option Manifest) : Bool :=
  cfg.force || (match man with
    | none => true
    | some m => decide (m.wrapperRenderVersion ≠ wrapperRenderVersion))

/-- `sourceTemplateChanged := cfg.Force || man == nil || man.SourceTemplateHash != sourceTemplateHash`. -/
def sourceTemplateChanged (cfg : Config) (man : Option Manifest) : Bool :=
  cfg.force || (match man with
    | none => true
    | some m => decide (m.sourceTemplateHash ≠ sourceTemplateHash))

/-- `sourceRenderChanged := cfg.Force || man == nil || man.SourceRenderVersion != sourceRenderVersion`. -/
def sourceRenderChanged (cfg : Config) (man : Option Manifest) : Bool :=
  cfg.force || (match man with
    | none => true
    | some m => decide (m.sourceRenderVersion ≠ sourceRenderVersion))

/-- `cardVersionChanged := cfg.Force || !equalStringPtr(prevCardVersion, cfg.CardVersion)`. -/
def cardVersionChanged (cfg : Config) (man : Option Manifest) : Bool :=
  cfg.force || !(equalStringPtr (prevCardVersionOf man) cfg.cardVersion)

/-- Per-record card dirtiness (`build.go` line 160). -/
def cardDirty (cfg : Config) (man : Option Manifest) (q : Quote) : Bool :=
  cardRenderChanged cfg man ||
    (match lookupEntry (manifestQuotesOf man) q.id with
      | none => true
      | some prev => decide (prev.cardHash ≠ (entryOf cfg q).cardHash))

/-- Per-record wrapper dirtiness (`build.go` line 161). -/
def wrapperDirty (cfg : Config) (man : Option Manifest) (q : Quote) : Bool :=
  wrapperRenderChanged cfg man || wrapperTemplateChanged cfg man || cardVersionChanged cfg man ||
    (match lookupEntry (manifestQuotesOf man) q.id with
      | none => true
      | some prev => decide (prev.wrapperHash ≠ (entryOf cfg q).wrapperHash))

/-- Per-record group-item dirtiness (`build.go` line 162): the group-item
hash or the group key changed (or globals changed, or no prior entry). -/
def groupDirtyRec (cfg : Config) (man : Option Manifest) (q : Quote) : Bool :=
  sourceRenderChanged cfg man || sourceTemplateChanged cfg man ||
    (match lookupEntry (manifestQuotesOf man) q.id with
      | none => true
      | some prev =>
        decide (prev.groupItemHash ≠ (entryOf cfg q).groupItemHash) ||
          decide (prev.sourceKey ≠ (entryOf cfg q).sourceKey))

/-- The removal scan (`build.go` lines 175-183): previous-manifest pairs
whose id is absent from `nextManifestQuotes`. -/
def removedQuotesOf (cfg : Config) (man : Option Manifest) (quoteList : List Quote) :
    List (String × QuoteEntry) :=
  (manifestQuotesOf man).filter (fun p => (lookupEntry (nextQuotes cfg quoteList) p.1).isNone)

/-- The dirty-group key set: group keys of dirty current records plus the
recorded `SourceKey` of every removed record (`build.go` lines 170-172 and
182).  `dedup` models the Go map's key set. -/
def dirtyGroupsOf (cfg : Config) (man : Option Manifest) (quoteList : List Quote) :
    List String :=
  ((quoteList.filter (groupDirtyRec cfg man)).map buildGroupKey ++
    (removedQuotesOf cfg man quoteList).map (fun p => p.2.sourceKey)).dedup

/-- Current members of a source group (`sourceGroups[key].quotes`, built in
input order by the first loop of `build.Execute`). -/
def groupMembers (quoteList : List Quote) (key : String) : List Quote :=
  quoteList.filter (fun q => buildGroupKey q = key)

/-- The order `sort.SliceStable` sorts group members by (`build.go` lines
229-237): `createdAt` descending, missing timestamps as `0`. -/
def quoteByCreatedDesc (a b : Quote) : Prop :=
  timeValue b.createdAt ≤ timeValue a.createdAt

instance : DecidableRel quoteByCreatedDesc :=
  fun a b => Int.decLe (timeValue b.createdAt) (timeValue a.createdAt)

/-- Group-page ordering (`build.go` lines 229-237): `sort.SliceStable` with
`less(i, j) = timeValue(a.CreatedAt) > timeValue(b.CreatedAt)`, i.e. a stable
sort by `createdAt` descending.  Insertion sort with the reflexive closure of
that comparator is the same stable sort. -/
def sortGroupQuotes (l : List Quote) : List Quote :=
  l.insertionSort quoteByCreatedDesc

/-- The manifest assembled and saved at the end of a non-empty run
(`build.go` lines 263-274). -/
def mkNextManifest (cfg : Config) (quoteList : List Quote) : Manifest :=
  { version := 1
  , cardVersion := cfg.cardVersion
  , cardRenderVersion := cardRenderVersion
  , cardRenderHash := cardRenderHash
  , fontsHash := fontsHash
  , wrapperRenderVersion := wrapperRenderVersion
  , wrapperTemplateHash := wrapperTemplateHash
  , sourceRenderVersion := sourceRenderVersion
  , sourceTemplateHash := sourceTemplateHash
  , quotes := nextQuotes cfg quoteList }

/-! ## The build orchestrator (`build.Execute`)

The filesystem effects are recorded in an `Outcome`:
`removedIds` are the removed-record ids for which
`removeDeletedQuoteOutputs` attempts to delete `cards/<id>.jpg` and the
wrapper directory `q/<id>/`; `cardsRendered`/`wrappersRendered` are the
records written by the render loops; `groupsRegenerated` are dirty group
keys whose aggregation page is rewritten, `groupPages` their member id lists
in page order, and `groupsRemoved` the dirty group keys with no remaining
members, whose output directory `removeSourceGroup` deletes.
`outputsWiped` records a `cleanOutputs` wipe of all three output trees, and
`manifestSaved` is the manifest persisted at the end of the run (`none`
means the manifest file was deleted / not written). -/

structure Outcome where
  dirtyCards : List String
  dirtyWrappers : List String
  dirtyGroups : List String
  removedIds : List String
  cardsRendered : List String
  wrappersRendered : List String
  groupsRegenerated : List String
  groupPages : List (String × List String)
  groupsRemoved : List String
  outputsWiped : Bool
  manifestSaved : Option Manifest
deriving DecidableEq, Repr

/-- The empty-input outcome (`build.go` lines 92-100): all output trees
wiped, manifest file deleted, nothing dirty or rendered. -/
def emptyRunOutcome : Outcome :=
  { dirtyCards := [], dirtyWrappers := [], dirtyGroups := [], removedIds := []
  , cardsRendered := [], wrappersRendered := [], groupsRegenerated := []
  , groupPages := [], groupsRemoved := [], outputsWiped := true, manifestSaved := none }

/-- The non-empty run (`build.go` lines 102-281): dirty-set computation,
removal processing, rendering of dirty artifacts, group regeneration or
deletion, and the final manifest save.  `man` is the effective previous
manifest (already `nil` under force). -/
def runBuild (cfg : Config) (quoteList : List Quote) (man : Option Manifest) : Outcome :=
  let dirtyCards := (quoteList.filter (cardDirty cfg man)).map (·.id)
  let dirtyWrappers := (quoteList.filter (wrapperDirty cfg man)).map (·.id)
  let removed := removedQuotesOf cfg man quoteList
  let dirtyGroups := dirtyGroupsOf cfg man quoteList
  { dirtyCards := dirtyCards
  , dirtyWrappers := dirtyWrappers
  , dirtyGroups := dirtyGroups
  , removedIds := removed.map (·.1)
  , cardsRendered := (quoteList.filter (fun q => dirtyCards.contains q.id)).map (·.id)
  , wrappersRendered := (quoteList.filter (fun q => dirtyWrappers.contains q.id)).map (·.id)
  , groupsRegenerated := dirtyGroups.filter (fun k => !(groupMembers quoteList k).isEmpty)
  , groupPages := dirtyGroups.filterMap (fun k =>
      if (groupMembers quoteList k).isEmpty then none
      else some (k, (sortGroupQuotes (groupMembers quoteList k)).map (·.id)))
  , groupsRemoved := dirtyGroups.filter (fun k => (groupMembers quoteList k).isEmpty)
  , outputsWiped := cfg.force
  , manifestSaved := some (mkNextManifest cfg quoteList) }

/-- Embedding of `build.Execute` after the manifest has been loaded
(`build.go` lines 83-281).  Force drops the loaded manifest and wipes the
output trees; an empty record set wipes the outputs and deletes the
manifest file; otherwise the dirty sets are computed, removals processed,
dirty artifacts rendered, and the next manifest saved. -/
def executeLoaded (cfg : Config) (quoteList : List Quote) (man0 : Option Manifest) : Outcome :=
  let man := if cfg.force then none else man0
  if quoteList.isEmpty then emptyRunOutcome
  else runBuild cfg quoteList man

/-! ## Manifest store (`manifest.Load` / `manifest.Save`) -/

/-- Embedding of `manifest.Load` (`manifest.go` lines 201-217).  The file is
`none` when absent, `some data` when present; JSON decoding (external
`encoding/json`) is a parameter `dec`.  A missing file is a success carrying
no manifest; a present file that fails to decode is an error. -/
def ManifestLoad (file : Option String) (dec : String → Option Manifest) :
    Except String (Option Manifest) :=
  match file with
  | none => Except.ok none
  | some data =>
    match dec data with
    | none => Except.error "unmarshal manifest"
    | some m => Except.ok (some m)

/-- Embedding of `build.Execute` including the initial `manifest.Load`
(`build.go` lines 73-81): a load error aborts before any output-tree
mutation or manifest write (no `Outcome` is produced at all). -/
def Execute (cfg : Config) (quoteList : List Quote) (file : Option String)
    (dec : String → Option Manifest) : Except String Outcome :=
  match ManifestLoad file dec with
  | Except.error e => Except.error e
  | Except.ok man => Except.ok (executeLoaded cfg quoteList man)

/-! ## Text-fit renderer (`render.RenderQuoteCard`, `render.go` lines 75-157)

Word-wrapping with the size-specific font face (`gg.Context.WordWrap` with
glyph metrics from the truetype face) is an external rendering library and
is modelled at its interface boundary by a parameter
`wrap : Nat → String → List String` (font size, display text, wrapped
lines).  The Go constants are floats whose values here are exact: the
candidate sizes 72, 70, …, 36 are integers, and the fit test
`lineCount * (size * 1.32) <= 388.0` is scaled by 100 into the exact integer
comparison `lineCount * size * 132 ≤ 38800` (no product `lineCount*size*33`
is within `2` of `25*388 = 9700`, so a float64 rounding error below `0.08`
can never flip the comparison). -/

def CardWidth : Nat := 1200
def CardHeight : Nat := 628
def CardPaddingX : Nat := 150
def CardPaddingY : Nat := 120

/-- `availableHeight := CardHeight - CardPaddingY*2` (= 388). -/
def availableHeightPx : Nat := CardHeight - CardPaddingY * 2

/-- The candidate font sizes tried by the render loop, largest first:
`for size := 72; size >= 36; size -= 2`. -/
def candidateFontSizes : List Nat :=
  [72, 70, 68, 66, 64, 62, 60, 58, 56, 54, 52, 50, 48, 46, 44, 42, 40, 38, 36]

/-- The display string: content in presentational quotation marks with
whitespace collapsed. -/
def displayOf (text : String) : String :=
  "“" ++ normalizeWhitespace text ++ "”"

/-- The wrapped lines at a size, with the empty-wrap fix-up
(`if len(wrapped) == 0 { wrapped = []string{""} }`). -/
def wrappedLines (wrap : Nat → String → List String) (display : String) (size : Nat) :
    List String :=
  let w := wrap size display
  if w = [] then [""] else w

/-- The fit test at a size: total wrapped height
`lineCount × size × 1.32` is at most the available height `388`. -/
def fitsAt (wrap : Nat → String → List String) (display : String) (size : Nat) : Bool :=
  decide ((wrappedLines wrap display size).length * size * 132 ≤ availableHeightPx * 100)

/-- The rendered card: fixed canvas plus the chosen font size and lines
(the pixel contents and JPEG encoding carry no further claim-relevant
information). -/
structure CardImage where
  width : Nat
  height : Nat
  fontSize : Nat
  lines : List String
deriving DecidableEq, Repr

/-- Embedding of `render.RenderQuoteCard`: accept the first (largest)
fitting candidate size, falling back to the minimum size 36 when no
candidate fits. -/
def RenderQuoteCard (wrap : Nat → String → List String) (text : String) : CardImage :=
  let display := displayOf text
  match candidateFontSizes.find? (fitsAt wrap display) with
  | some size =>
    { width := CardWidth, height := CardHeight, fontSize := size
    , lines := wrappedLines wrap display size }
  | none =>
    { width := CardWidth, height := CardHeight, fontSize := 36
    , lines := wrappedLines wrap display 36 }

/-! ## URL normalisation (`quotes.normalizeURL`, `quotes.inferDomainAndSlug`)

`net/url` is an external collaborator; it is modelled for the
`scheme://host/path?query#fragment` shape the build exercises (userinfo,
ports and percent-escaping are out of scope; `Hostname()` is the host
field).  `urlString` mirrors `url.URL.String()` on this shape: the query is
written after the path, the fragment after the query, and empty components
are omitted. -/

structure GoURL where
  scheme : String
  host : String
  path : String
  rawQuery : String
  fragment : String
deriving DecidableEq, Repr

/-- Serialisation `url.URL.String()` for the modelled shape. -/
def urlString (u : GoURL) : String :=
  (if u.scheme = "" then "" else u.scheme ++ "://") ++ u.host ++ u.path ++
    (if u.rawQuery = "" then "" else "?" ++ u.rawQuery) ++
    (if u.fragment = "" then "" else "#" ++ u.fragment)

/-- Split `host/rest-of-path` at the first slash; the path keeps its
leading slash. -/
def splitHostPath (cs : List Char) : String × String :=
  let (host, rest) := breakOnChar (· = '/') cs
  (host.asString, rest.asString)

/-- Model of `url.Parse` on the modelled shape: strip the fragment after
the first `#`, the query after the first `?`, then recognise
`scheme://host/path`.  A string without `://` parses as a relative URL
(empty scheme and host), which `normalizeURL` then rejects, matching Go. -/
def urlParseStr (s : String) : Option GoURL :=
  let cs := s.toList
  let (beforeFrag, fragRest) := breakOnChar (· = '#') cs
  let frag := (fragRest.drop 1).asString
  let (beforeQuery, queryRest) := breakOnChar (· = '?') beforeFrag
  let query := (queryRest.drop 1).asString
  let (schemeCand, rest) := breakOnChar (· = ':') beforeQuery
  if rest.take 3 = [':', '/', '/'] then
    let (host, path) := splitHostPath (rest.drop 3)
    some { scheme := schemeCand.asString, host := host, path := path
         , rawQuery := query, fragment := frag }
  else
    some { scheme := "", host := "", path := beforeQuery.asString
         , rawQuery := query, fragment := frag }

/-- The normalisation applied to a successfully parsed URL
(`quotes.go` lines 244-247): clear the fragment, serialise, strip one
trailing slash. -/
def normalizeParsedURL (u : GoURL) : String :=
  trimOneTrailingSlash (urlString { u with fragment := "" })

/-- Embedding of `quotes.normalizeURL` (`quotes.go` lines 232-248).
`none` models the error return; the empty input is a non-error empty
result. -/
def normalizeURL (input : String) : Option String :=
  let trimmed := trimSpace input
  if trimmed = "" then some ""
  else
    match urlParseStr trimmed with
    | none => none
    | some u =>
      if u.scheme = "" ∨ u.host = "" then none
      else some (normalizeParsedURL u)

/-- Model of `gosimple/slug.Make` at its interface boundary: lowercase,
replace runs of non-alphanumeric characters by single dashes, trim dashes. -/
def slugMake (s : String) : String :=
  let mapped := s.toList.map (fun c => if c.isAlphanum then c.toLower else ' ')
  joinSep "-" ((fieldsAux (· = ' ') [] mapped).map List.asString)

/-- Embedding of `quotes.inferDomainAndSlug` (`quotes.go` lines 250-268). -/
def inferDomainAndSlug (normalizedURL : String) : String × String :=
  if normalizedURL = "" then ("", "")
  else
    match urlParseStr normalizedURL with
    | none => ("", "")
    | some u =>
      let host := u.host
      let path := trimSlashes u.path
      if path = "" then (host, "index")
      else
        let sl := slugMake path
        if sl = "" then (host, "index") else (host, sl)

/-- The group key derived from a normalized URL: inferred domain and slug
joined by `"__"` (as `buildGroupKey` does for the loader-filled fields). -/
def groupKeyOfNormalizedURL (normalizedURL : String) : String :=
  (inferDomainAndSlug normalizedURL).1 ++ "__" ++ (inferDomainAndSlug normalizedURL).2

/-! ## Content loader (`quotes.Load`, `quotes.go` lines 61-187)

Directory walking, YAML decoding and markdown rendering are external
collaborators: the input is the sorted list of parsed files (`front = none`
models a front-matter parse failure, whose Go error text is dynamic and
modelled by a fixed message), markdown conversion is a parameter `md`, and
`time.Parse` of `created_at` is a parameter `pt`.  Everything from the
validation loop down is embedded faithfully — including that a record
failing validation is still appended to the returned `quotes` list. -/

structure FrontMatter where
  id : String
  quote : String
  name : String
  url : String
  articleTitle : String
  sourceDomain : String
  createdAt : String
  tags : List String
deriving DecidableEq, Repr

structure ParsedFile where
  location : String
  front : Option FrontMatter
  body : String
deriving DecidableEq, Repr

/-- Embedding of `quotes.fallbackString`: first value with non-blank trim. -/
def fallbackString : List String → String
  | [] => ""
  | v :: rest => if trimSpace v ≠ "" then v else fallbackString rest

structure LoadResult where
  quotes : List Quote
  warnings : List String
  errors : List String
deriving DecidableEq, Repr

structure LoadState where
  idSet : List String
  urlSet : List (String × List String)
  warnings : List String
  errors : List String
  quotesOut : List Quote
deriving DecidableEq, Repr

/-- `urlSet[normalizedURL] = append(bucket, idKey)`. -/
def addToBucket (us : List (String × List String)) (url idKey : String) :
    List (String × List String) :=
  if us.any (fun p => p.1 = url) then
    us.map (fun p => if p.1 = url then (p.1, p.2 ++ [idKey]) else p)
  else us ++ [(url, [idKey])]

/-- One iteration of the `quotes.Load` validation loop. -/
def loadStep (md : String → String) (pt : String → Option Int)
    (st : LoadState) (file : ParsedFile) : LoadState :=
  match file.front with
  | none => { st with errors := st.errors ++ [file.location ++ ": invalid front matter."] }
  | some fm =>
    let location := file.location
    let (errsId, idSet1) :=
      if fm.id = "" then ([location ++ ": missing required field \"id\"."], st.idSet)
      else if st.idSet.contains fm.id then
        ([location ++ ": duplicate id \"" ++ fm.id ++ "\"."], st.idSet)
      else ([], st.idSet ++ [fm.id])
    let errsQuote := if fm.quote = "" then [location ++ ": missing required field \"quote\"."] else []
    let errsName := if fm.name = "" then [location ++ ": missing required field \"name\"."] else []
    let errsURL := if fm.url = "" then [location ++ ": missing required field \"url\"."] else []
    let (normalizedURL, errsNorm) :=
      match normalizeURL fm.url with
      | none => ("", [location ++ ": invalid url \"" ++ fm.url ++ "\"."])
      | some n => (n, ([] : List String))
    let createdAt := pt fm.createdAt
    let inferred := inferDomainAndSlug normalizedURL
    let domain := if fm.sourceDomain ≠ "" then fm.sourceDomain else inferred.1
    let slugValue := inferred.2
    let warnsDomain := if domain = "" then [location ++ ": could not determine source domain."] else []
    let warnsSlug := if slugValue = "" then [location ++ ": could not determine article slug."] else []
    let urlSet1 :=
      if normalizedURL ≠ "" then
        addToBucket st.urlSet normalizedURL (if fm.id = "" then location else fm.id)
      else st.urlSet
    let bodyHTML := if trimSpace file.body ≠ "" then md file.body else ""
    let quoteObj : Quote :=
      { id := fm.id, quote := fm.quote, name := fm.name, url := fm.url
      , normalizedURL := normalizedURL, articleTitle := fm.articleTitle
      , sourceDomain := fallbackString [fm.sourceDomain, domain, "unknown-source"]
      , articleSlug := fallbackString [slugValue, "index"]
      , createdAt := createdAt, tags := fm.tags, bodyHTML := bodyHTML
      , location := location }
    { idSet := idSet1
    , urlSet := urlSet1
    , warnings := st.warnings ++ warnsDomain ++ warnsSlug
    , errors := st.errors ++ errsId ++ errsQuote ++ errsName ++ errsURL ++ errsNorm
    , quotesOut := st.quotesOut ++ [quoteObj] }

/-- Embedding of `quotes.Load` from the parsed files down: the validation
loop followed by the duplicate-URL warning pass. -/
def loadCore (md : String → String) (pt : String → Option Int)
    (files : List ParsedFile) : LoadResult :=
  let st := files.foldl (loadStep md pt) ⟨[], [], [], [], []⟩
  let dupWarnings :=
    (st.urlSet.filter (fun p => p.2.length > 1)).map (fun p =>
      "Multiple quotes reference the same url (" ++ p.1 ++ "): " ++
        joinSep ", " (sortStrings p.2))
  { quotes := st.quotesOut, warnings := st.warnings ++ dupWarnings, errors := st.errors }

/-! ## Concrete fixtures (used by the witness theorems) -/

/-- A default configuration: empty base path and origin, no cache-bust
token, force off. -/
def cfg0 : Config :=
  { basePath := "", siteOrigin := "", cardVersion := none, force := false }

/-- A representative validated record. -/
def sampleQuote : Quote :=
  { id := "2024-03-21-1200-sample", quote := "Small changes compound.", name := "Jane Doe"
  , url := "https://example.com/article", normalizedURL := "https://example.com/article"
  , articleTitle := "Rethinking the Everyday", sourceDomain := "example.com"
  , articleSlug := "article", createdAt := some 1711022400
  , tags := ["design", "habits"], bodyHTML := "", location := "quotes/sample.md" }

/-- A second record in a different source group. -/
def sampleQuote2 : Quote :=
  { id := "2024-04-01-0900-other", quote := "Ship early.", name := "Ada"
  , url := "https://blog.example.org/post", normalizedURL := "https://blog.example.org/post"
  , articleTitle := "", sourceDomain := "blog.example.org", articleSlug := "post"
  , createdAt := none, tags := [], bodyHTML := "", location := "quotes/other.md" }

/-- A word-wrap oracle producing a single short line at every size. -/
def wrapOneLine : Nat → String → List String :=
  fun _ _ => ["line"]

/-- A word-wrap oracle producing 100 lines at every size (text so long that
even the minimum font size overflows the canvas). -/
def wrapManyLines : Nat → String → List String :=
  fun _ _ => List.replicate 100 "line"

/-- A parsed quote file whose front matter is missing the required `quote`
field but is otherwise valid. -/
def missingQuoteFile : ParsedFile :=
  { location := "quotes/bad.md"
  , front := some
      { id := "q1", quote := "", name := "Jane Doe", url := "https://example.com/article"
      , articleTitle := "", sourceDomain := "", createdAt := "", tags := [] }
  , body := "" }

/-- A valid absolute URL carrying a query string. -/
def urlWithQuery : GoURL :=
  { scheme := "https", host := "example.com", path := "/a", rawQuery := "x=1", fragment := "" }

/-- A valid absolute URL without query or fragment. -/
def urlPlain : GoURL :=
  { scheme := "https", host := "example.com", path := "/a", rawQuery := "", fragment := "" }

/-- A stale manifest entry for a record that no longer exists. -/
def goneEntry : QuoteEntry :=
  { cardHash := ["stale-card"], wrapperHash := ["stale-wrapper"]
  , groupItemHash := ["stale-item"], sourceKey := "old.example__post"
  , sourceDomain := "old.example", articleSlug := "post" }

/-- A previous manifest still holding the removed record `gone-id`. -/
def prevWithGone : Manifest :=
  { emptyManifest with quotes := [("gone-id", goneEntry)] }

/-- `sampleQuote` as it looked on the previous run, in a different source
group. -/
def oldGroupQuote : Quote :=
  { sampleQuote with
      url := "https://old.example/post",
      normalizedURL := "https://old.example/post",
      sourceDomain := "old.example",
      articleSlug := "post" }

/-! ## Order lemmas for the string comparison -/

theorem leChars_total : ∀ (as bs : List Char), leChars as bs = true ∨ leChars bs as = true
  | [], _ => Or.inl rfl
  | _ :: _, [] => Or.inr rfl
  | a :: as, b :: bs => by
    rcases lt_trichotomy a b with h | h | h
    · exact Or.inl (by simp [leChars, h])
    · subst h
      rcases leChars_total as bs with ih | ih
      · exact Or.inl (by simp [leChars, ih])
      · exact Or.inr (by simp [leChars, ih])
    · exact Or.inr (by simp [leChars, h])

theorem leChars_trans : ∀ (as bs cs : List Char),
    leChars as bs = true → leChars bs cs = true → leChars as cs = true
  | [], _, _, _, _ => rfl
  | _ :: _, [], _, h, _ => by simp [leChars] at h
  | _ :: _, _ :: _, [], _, h => by simp [leChars] at h
  | a :: as, b :: bs, c :: cs, h₁, h₂ => by
    simp only [leChars, Bool.or_eq_true, Bool.and_eq_true, decide_eq_true_eq] at h₁ h₂ ⊢
    rcases h₁ with h₁ | ⟨rfl, h₁⟩
    · rcases h₂ with h₂ | ⟨rfl, h₂⟩
      · exact Or.inl (h₁.trans h₂)
      · exact Or.inl h₁
    · rcases h₂ with h₂ | ⟨rfl, h₂⟩
      · exact Or.inl h₂
      · exact Or.inr ⟨rfl, leChars_trans as bs cs h₁ h₂⟩

theorem leChars_antisymm : ∀ (as bs : List Char),
    leChars as bs = true → leChars bs as = true → as = bs
  | [], [], _, _ => rfl
  | [], _ :: _, _, h => by simp [leChars] at h
  | _ :: _, [], h, _ => by simp [leChars] at h
  | a :: as, b :: bs, h₁, h₂ => by
    simp only [leChars, Bool.or_eq_true, Bool.and_eq_true, decide_eq_true_eq] at h₁ h₂
    rcases h₁ with h₁ | ⟨heq, h₁⟩
    · rcases h₂ with h₂ | ⟨heq, _⟩
      · exact absurd (h₁.trans h₂) (lt_irrefl _)
      · subst heq
        exact absurd h₁ (lt_irrefl _)
    · subst heq
      rcases h₂ with h₂ | ⟨_, h₂⟩
      · exact absurd h₂ (lt_irrefl _)
      · rw [leChars_antisymm as bs h₁ h₂]

instance : IsTotal String leString :=
  ⟨fun a b => leChars_total a.data b.data⟩

instance : IsTrans String leString :=
  ⟨fun a b c => leChars_trans a.data b.data c.data⟩

instance : IsAntisymm String leString :=
  ⟨fun a b h₁ h₂ => by
    cases a; cases b
    exact congrArg String.mk (leChars_antisymm _ _ h₁ h₂)⟩

/-- `sort.Strings` depends only on the multiset of strings: permuted inputs
sort to the same list. -/
theorem sortStrings_perm_eq {l₁ l₂ : List String} (h : l₁.Perm l₂) :
    sortStrings l₁ = sortStrings l₂ :=
  List.eq_of_perm_of_sorted
    ((List.perm_insertionSort _ l₁).trans (h.trans (List.perm_insertionSort _ l₂).symm))
    (List.sorted_insertionSort _ l₁) (List.sorted_insertionSort _ l₂)

/-! ## Association-list lemmas for the manifest map -/

theorem lookupEntry_cons (p : String × QuoteEntry) (rest : List (String × QuoteEntry))
    (id : String) :
    lookupEntry (p :: rest) id = if p.1 = id then some p.2 else lookupEntry rest id := by
  by_cases h : p.1 = id <;> simp [lookupEntry, List.find?_cons, h]

theorem upsertEntry_cons_of_ne (p : String × QuoteEntry) (rest : List (String × QuoteEntry))
    (k : String) (e : QuoteEntry) (hp : p.1 ≠ k) :
    upsertEntry (p :: rest) k e = p :: upsertEntry rest k e := by
  by_cases h : rest.any (fun q => q.1 = k) <;>
    simp [upsertEntry, List.any_cons, hp, h]

theorem lookupEntry_map_overwrite (rest : List (String × QuoteEntry)) (k : String)
    (e : QuoteEntry) (id : String) (hne : k ≠ id) :
    lookupEntry (rest.map (fun p => if p.1 = k then (k, e) else p)) id =
      lookupEntry rest id := by
  induction rest with
  | nil => rfl
  | cons p ps ih =>
    by_cases hp : p.1 = k
    · rw [List.map_cons, if_pos hp, lookupEntry_cons, lookupEntry_cons, if_neg hne,
        if_neg (hp ▸ hne), ih]
    · rw [List.map_cons, if_neg hp, lookupEntry_cons, lookupEntry_cons, ih]

theorem lookupEntry_upsert (m : List (String × QuoteEntry)) (k : String) (e : QuoteEntry)
    (id : String) :
    lookupEntry (upsertEntry m k e) id = if k = id then some e else lookupEntry m id := by
  induction m with
  | nil =>
    by_cases h : k = id <;> simp [upsertEntry, lookupEntry, List.find?, h]
  | cons p rest ih =>
    by_cases hp : p.1 = k
    · have hany : (p :: rest).any (fun q => q.1 = k) = true := by
        simp [List.any_cons, hp]
      rw [upsertEntry, if_pos hany, List.map_cons, if_pos hp]
      by_cases h : k = id
      · simp [lookupEntry_cons, h]
      · have hpid : ¬ p.1 = id := by rw [hp]; exact h
        simp [lookupEntry_cons, h, hpid, lookupEntry_map_overwrite rest k e id h]
    · rw [upsertEntry_cons_of_ne p rest k e hp, lookupEntry_cons, lookupEntry_cons]
      by_cases h : p.1 = id
      · have hk : ¬ k = id := fun hk => hp (h.trans hk.symm)
        simp [h, hk]
      · simp [h, ih]

theorem lookupEntry_foldl_upsert (cfg : Config) (l : List Quote)
    (m : List (String × QuoteEntry)) (id : String) :
    lookupEntry (l.foldl (fun acc q => upsertEntry acc q.id (entryOf cfg q)) m) id =
      (l.reverse.find? (fun q => q.id = id)).elim (lookupEntry m id)
        (fun q => some (entryOf cfg q)) := by
  induction l generalizing m with
  | nil => rfl
  | cons q l ih =>
    rw [List.foldl_cons, ih, List.reverse_cons, List.find?_append]
    cases hfind : l.reverse.find? (fun r => r.id = id) with
    | some r => simp [hfind, Option.elim]
    | none =>
      by_cases h : q.id = id <;>
        simp [hfind, Option.elim, List.find?, h, lookupEntry_upsert]

/-- Lookup in `nextManifestQuotes`: the entry of the last record in input
order bearing the id, if any. -/
theorem lookupEntry_nextQuotes (cfg : Config) (l : List Quote) (id : String) :
    lookupEntry (nextQuotes cfg l) id =
      (l.reverse.find? (fun q => q.id = id)).map (fun q => entryOf cfg q) := by
  rw [nextQuotes, lookupEntry_foldl_upsert]
  cases l.reverse.find? (fun q => q.id = id) <;> simp [Option.elim, lookupEntry]

theorem lookupEntry_nextQuotes_isSome (cfg : Config) (l : List Quote) (id : String) :
    (lookupEntry (nextQuotes cfg l) id).isSome = true ↔ ∃ q ∈ l, q.id = id := by
  rw [lookupEntry_nextQuotes]
  constructor
  · intro h
    cases hfind : l.reverse.find? (fun q => q.id = id) with
    | none => rw [hfind] at h; simp at h
    | some q =>
      have hq := List.mem_of_find?_eq_some hfind
      have hid := List.find?_some hfind
      exact ⟨q, List.mem_reverse.mp hq, by simpa using hid⟩
  · rintro ⟨q, hq, hid⟩
    cases hfind : l.reverse.find? (fun q => q.id = id) with
    | none =>
      have := List.find?_eq_none.mp hfind q (List.mem_reverse.mpr hq)
      simp [hid] at this
    | some r => simp [hfind]

theorem find?_id_of_nodup : ∀ (l : List Quote) (q : Quote),
    (l.map Quote.id).Nodup → q ∈ l → l.find? (fun r => r.id = q.id) = some q
  | [], q, _, hq => absurd hq (List.not_mem_nil q)
  | r :: rest, q, hnd, hq => by
    have hnd' := hnd
    rw [List.map_cons, List.nodup_cons] at hnd'
    by_cases h : r.id = q.id
    · have : q = r := by
        rcases List.mem_cons.mp hq with rfl | hmem
        · rfl
        · exact absurd (h ▸ List.mem_map_of_mem Quote.id hmem) hnd'.1
      rw [List.find?_cons, this]
      simp [h]
    · have hmem : q ∈ rest := by
        rcases List.mem_cons.mp hq with rfl | hmem
        · exact absurd rfl h
        · exact hmem
      rw [List.find?_cons_of_neg _ (by simpa using h)]
      exact find?_id_of_nodup rest q hnd'.2 hmem

/-- With pairwise-distinct ids (as the loader guarantees), the next-manifest
entry of a current record is exactly its freshly computed entry. -/
theorem lookupEntry_nextQuotes_of_nodup (cfg : Config) {l : List Quote} {q : Quote}
    (hnd : (l.map Quote.id).Nodup) (hq : q ∈ l) :
    lookupEntry (nextQuotes cfg l) q.id = some (entryOf cfg q) := by
  rw [lookupEntry_nextQuotes]
  have hnd' : (l.reverse.map Quote.id).Nodup := by
    rw [List.map_reverse]
    exact List.nodup_reverse.mpr hnd
  rw [find?_id_of_nodup l.reverse q hnd' (List.mem_reverse.mpr hq)]
  rfl

/-! ## First-match lemmas for the descending candidate-size scan -/

theorem find?_desc_ge {l : List Nat} {p : Nat → Bool} {x : Nat}
    (hs : l.Pairwise (· > ·)) (hfind : l.find? p = some x) :
    ∀ y ∈ l, p y = true → y ≤ x := by
  induction l with
  | nil => intro y hy; exact absurd hy (List.not_mem_nil y)
  | cons a rest ih =>
    rw [List.pairwise_cons] at hs
    intro y hy hpy
    rcases List.mem_cons.mp hy with rfl | hmem
    · cases hpa : p y with
      | true =>
        rw [List.find?_cons, hpa] at hfind
        exact le_of_eq (Option.some.inj hfind)
      | false => exact absurd hpy (by simp [hpa])
    · cases hpa : p a with
      | true =>
        rw [List.find?_cons, hpa] at hfind
        exact le_of_lt ((Option.some.inj hfind) ▸ hs.1 y hmem)
      | false =>
        rw [List.find?_cons, hpa] at hfind
        exact ih hs.2 hfind y hmem hpy

/-! ## Stability of insertion sort under key-filtering -/

theorem filter_orderedInsert {α : Type} (r : α → α → Prop) [DecidableRel r]
    (p : α → Bool) (a : α)
    (h : ∀ b, p a = true → p b = true → r a b) :
    ∀ l : List α,
      (l.orderedInsert r a).filter p =
        if p a then a :: l.filter p else l.filter p
  | [] => by
    cases hpa : p a <;> simp [List.orderedInsert, List.filter, hpa]
  | b :: l => by
    rw [List.orderedInsert]
    by_cases hr : r a b
    · rw [if_pos hr]
      cases hpa : p a <;> simp [List.filter_cons, hpa]
    · rw [if_neg hr]
      cases hpa : p a
      · cases hpb : p b <;>
          simp [List.filter_cons, hpb, filter_orderedInsert r p a h l, hpa]
      · have hpb : p b = false := by
          cases hpb : p b
          · rfl
          · exact absurd (h b hpa hpb) hr
        simp [List.filter_cons, hpb, filter_orderedInsert r p a h l, hpa]

theorem filter_insertionSort {α : Type} (r : α → α → Prop) [DecidableRel r]
    (p : α → Bool) (hcompat : ∀ a b, p a = true → p b = true → r a b) :
    ∀ l : List α, (l.insertionSort r).filter p = l.filter p
  | [] => rfl
  | a :: l => by
    rw [List.insertionSort, filter_orderedInsert r p a (hcompat a),
      filter_insertionSort r p hcompat l, List.filter_cons]

/-! ## Facts about the orchestrator -/

theorem equalStringPtr_refl (x : Option String) : equalStringPtr x x = true := by
  cases x <;> simp [equalStringPtr]

theorem lookupEntry_isSome_of_mem {m : List (String × QuoteEntry)} {p : String × QuoteEntry}
    (hp : p ∈ m) : (lookupEntry m p.1).isSome = true := by
  rw [lookupEntry]
  cases hfind : m.find? (fun r => r.1 = p.1) with
  | some r => rfl
  | none =>
    have := List.find?_eq_none.mp hfind p hp
    simp at this

theorem executeLoaded_nil (cfg : Config) (man0 : Option Manifest) :
    executeLoaded cfg [] man0 = emptyRunOutcome := by
  simp [executeLoaded]

theorem executeLoaded_cons (cfg : Config) (q : Quote) (l : List Quote) (man0 : Option Manifest)
    (hforce : cfg.force = false) :
    executeLoaded cfg (q :: l) man0 = runBuild cfg (q :: l) man0 := by
  simp [executeLoaded, hforce]

theorem cardRenderChanged_mkNext (cfg cfg2 : Config) (qs : List Quote)
    (hforce : cfg.force = false) :
    cardRenderChanged cfg (some (mkNextManifest cfg2 qs)) = false := by
  simp [cardRenderChanged, hforce, mkNextManifest]

theorem wrapperRenderChanged_mkNext (cfg cfg2 : Config) (qs : List Quote)
    (hforce : cfg.force = false) :
    wrapperRenderChanged cfg (some (mkNextManifest cfg2 qs)) = false := by
  simp [wrapperRenderChanged, hforce, mkNextManifest]

theorem wrapperTemplateChanged_mkNext (cfg cfg2 : Config) (qs : List Quote)
    (hforce : cfg.force = false) :
    wrapperTemplateChanged cfg (some (mkNextManifest cfg2 qs)) = false := by
  simp [wrapperTemplateChanged, hforce, mkNextManifest]

theorem sourceRenderChanged_mkNext (cfg cfg2 : Config) (qs : List Quote)
    (hforce : cfg.force = false) :
    sourceRenderChanged cfg (some (mkNextManifest cfg2 qs)) = false := by
  simp [sourceRenderChanged, hforce, mkNextManifest]

theorem sourceTemplateChanged_mkNext (cfg cfg2 : Config) (qs : List Quote)
    (hforce : cfg.force = false) :
    sourceTemplateChanged cfg (some (mkNextManifest cfg2 qs)) = false := by
  simp [sourceTemplateChanged, hforce, mkNextManifest]

theorem cardVersionChanged_mkNext (cfg cfg2 : Config) (qs : List Quote)
    (hforce : cfg.force = false) (hv : cfg2.cardVersion = cfg.cardVersion) :
    cardVersionChanged cfg (some (mkNextManifest cfg2 qs)) = false := by
  simp [cardVersionChanged, hforce, prevCardVersionOf, mkNextManifest, hv, equalStringPtr_refl]

/-- On the manifest the run itself just saved, no per-record artifact of a
still-present record is dirty. -/
theorem selfManifest_not_dirty (cfg : Config) {qs : List Quote} (hforce : cfg.force = false)
    (hnd : (qs.map Quote.id).Nodup) {q : Quote} (hq : q ∈ qs) :
    cardDirty cfg (some (mkNextManifest cfg qs)) q = false ∧
    wrapperDirty cfg (some (mkNextManifest cfg qs)) q = false ∧
    groupDirtyRec cfg (some (mkNextManifest cfg qs)) q = false := by
  have hlook : lookupEntry (manifestQuotesOf (some (mkNextManifest cfg qs))) q.id =
      some (entryOf cfg q) := by
    simpa [manifestQuotesOf, mkNextManifest] using
      lookupEntry_nextQuotes_of_nodup cfg hnd hq
  refine ⟨?_, ?_, ?_⟩ <;>
    simp [cardDirty, wrapperDirty, groupDirtyRec, hlook,
      cardRenderChanged_mkNext cfg cfg qs hforce,
      wrapperRenderChanged_mkNext cfg cfg qs hforce,
      wrapperTemplateChanged_mkNext cfg cfg qs hforce,
      sourceRenderChanged_mkNext cfg cfg qs hforce,
      sourceTemplateChanged_mkNext cfg cfg qs hforce,
      cardVersionChanged_mkNext cfg cfg qs hforce rfl]

/-- On the manifest the run itself just saved, the removal scan is empty. -/
theorem selfManifest_no_removed (cfg : Config) (qs : List Quote) :
    removedQuotesOf cfg (some (mkNextManifest cfg qs)) qs = [] := by
  rw [removedQuotesOf]
  apply List.filter_eq_nil_iff.mpr
  intro p hp
  have hmem : p ∈ nextQuotes cfg qs := by
    simpa [manifestQuotesOf, mkNextManifest] using hp
  have hs := lookupEntry_isSome_of_mem hmem
  obtain ⟨v, hv⟩ := Option.isSome_iff_exists.mp hs
  simp [hv]

/-- C1 auxiliary: the full second-run quiescence over a non-empty record
set. -/
theorem secondRun_quiescent (cfg : Config) (qs : List Quote)
    (hforce : cfg.force = false) (hnd : (qs.map Quote.id).Nodup) :
    (qs.filter (cardDirty cfg (some (mkNextManifest cfg qs))) = []) ∧
    (qs.filter (wrapperDirty cfg (some (mkNextManifest cfg qs))) = []) ∧
    (qs.filter (groupDirtyRec cfg (some (mkNextManifest cfg qs))) = []) ∧
    dirtyGroupsOf cfg (some (mkNextManifest cfg qs)) qs = [] := by
  have hfc : qs.filter (cardDirty cfg (some (mkNextManifest cfg qs))) = [] :=
    List.filter_eq_nil_iff.mpr (fun r hr => by
      simp [(selfManifest_not_dirty cfg hforce hnd hr).1])
  have hfw : qs.filter (wrapperDirty cfg (some (mkNextManifest cfg qs))) = [] :=
    List.filter_eq_nil_iff.mpr (fun r hr => by
      simp [(selfManifest_not_dirty cfg hforce hnd hr).2.1])
  have hfg : qs.filter (groupDirtyRec cfg (some (mkNextManifest cfg qs))) = [] :=
    List.filter_eq_nil_iff.mpr (fun r hr => by
      simp [(selfManifest_not_dirty cfg hforce hnd hr).2.2])
  refine ⟨hfc, hfw, hfg, ?_⟩
  rw [dirtyGroupsOf, hfg, selfManifest_no_removed]
  rfl

/-- C1: running the build twice with the same configuration (force off), the
same record set (with the loader-guaranteed distinct ids), and the unchanged
template/font constants leaves every dirty set empty on the second run,
renders and removes nothing, and persists the same manifest (the model
excludes only the `generatedAt` wall-clock stamp). -/
theorem build_second_run_idempotent (cfg : Config) (qs : List Quote) (man0 : Option Manifest)
    (hforce : cfg.force = false) (hnd : (qs.map Quote.id).Nodup) :
    (executeLoaded cfg qs (executeLoaded cfg qs man0).manifestSaved).dirtyCards = [] ∧
    (executeLoaded cfg qs (executeLoaded cfg qs man0).manifestSaved).dirtyWrappers = [] ∧
    (executeLoaded cfg qs (executeLoaded cfg qs man0).manifestSaved).dirtyGroups = [] ∧
    (executeLoaded cfg qs (executeLoaded cfg qs man0).manifestSaved).removedIds = [] ∧
    (executeLoaded cfg qs (executeLoaded cfg qs man0).manifestSaved).cardsRendered = [] ∧
    (executeLoaded cfg qs (executeLoaded cfg qs man0).manifestSaved).wrappersRendered = [] ∧
    (executeLoaded cfg qs (executeLoaded cfg qs man0).manifestSaved).groupsRegenerated = [] ∧
    (executeLoaded cfg qs (executeLoaded cfg qs man0).manifestSaved).groupPages = [] ∧
    (executeLoaded cfg qs (executeLoaded cfg qs man0).manifestSaved).groupsRemoved = [] ∧
    (executeLoaded cfg qs (executeLoaded cfg qs man0).manifestSaved).manifestSaved =
      (executeLoaded cfg qs man0).manifestSaved := by
  cases qs with
  | nil => simp [executeLoaded_nil, emptyRunOutcome]
  | cons q l =>
    have h1 : (executeLoaded cfg (q :: l) man0).manifestSaved =
        some (mkNextManifest cfg (q :: l)) := by
      rw [executeLoaded_cons cfg q l man0 hforce]
      rfl
    obtain ⟨hfc, hfw, hfg, hdg⟩ := secondRun_quiescent cfg (q :: l) hforce hnd
    rw [h1, executeLoaded_cons cfg q l _ hforce]
    refine ⟨?_, ?_, ?_, ?_, ?_, ?_, ?_, ?_, ?_, ?_⟩ <;>
      simp [runBuild, hfc, hfw, hdg, selfManifest_no_removed]

/-- C1 witness: a concrete one-record double run. -/
theorem build_second_run_idempotent_witness :
    (executeLoaded cfg0 [sampleQuote]
        (executeLoaded cfg0 [sampleQuote] none).manifestSaved).dirtyCards = [] ∧
    (executeLoaded cfg0 [sampleQuote]
        (executeLoaded cfg0 [sampleQuote] none).manifestSaved).manifestSaved =
      (executeLoaded cfg0 [sampleQuote] none).manifestSaved := by
  have h := build_second_run_idempotent cfg0 [sampleQuote] none rfl (by decide)
  exact ⟨h.1, h.2.2.2.2.2.2.2.2.2⟩

/-! ## Fingerprint sensitivity (C3) -/

theorem lookupEntry_mkNext_single (cfg : Config) (q : Quote) {id : String}
    (hid : id = q.id) :
    lookupEntry (manifestQuotesOf (some (mkNextManifest cfg [q]))) id =
      some (entryOf cfg q) := by
  subst hid
  simp [manifestQuotesOf, mkNextManifest, nextQuotes, upsertEntry, lookupEntry, List.find?]

theorem cardDirty_single (cfg : Config) (q q2 : Quote) (hforce : cfg.force = false)
    (hid : q2.id = q.id) :
    cardDirty cfg (some (mkNextManifest cfg [q])) q2 =
      decide ((entryOf cfg q).cardHash ≠ (entryOf cfg q2).cardHash) := by
  simp [cardDirty, lookupEntry_mkNext_single cfg q hid,
    cardRenderChanged_mkNext cfg cfg [q] hforce]

theorem wrapperDirty_single (cfg : Config) (q q2 : Quote) (hforce : cfg.force = false)
    (hid : q2.id = q.id) :
    wrapperDirty cfg (some (mkNextManifest cfg [q])) q2 =
      decide ((entryOf cfg q).wrapperHash ≠ (entryOf cfg q2).wrapperHash) := by
  simp [wrapperDirty, lookupEntry_mkNext_single cfg q hid,
    wrapperRenderChanged_mkNext cfg cfg [q] hforce,
    wrapperTemplateChanged_mkNext cfg cfg [q] hforce,
    cardVersionChanged_mkNext cfg cfg [q] hforce rfl]

theorem groupDirtyRec_single (cfg : Config) (q q2 : Quote) (hforce : cfg.force = false)
    (hid : q2.id = q.id) :
    groupDirtyRec cfg (some (mkNextManifest cfg [q])) q2 =
      (decide ((entryOf cfg q).groupItemHash ≠ (entryOf cfg q2).groupItemHash) ||
        decide ((entryOf cfg q).sourceKey ≠ (entryOf cfg q2).sourceKey)) := by
  simp [groupDirtyRec, lookupEntry_mkNext_single cfg q hid,
    sourceRenderChanged_mkNext cfg cfg [q] hforce,
    sourceTemplateChanged_mkNext cfg cfg [q] hforce]

theorem removedQuotesOf_single (cfg : Config) (q q2 : Quote) (hid : q2.id = q.id) :
    removedQuotesOf cfg (some (mkNextManifest cfg [q])) [q2] = [] := by
  have hlook : lookupEntry (nextQuotes cfg [q2]) q.id = some (entryOf cfg q2) := by
    rw [← hid]
    simp [nextQuotes, upsertEntry, lookupEntry, List.find?]
  rw [removedQuotesOf]
  have hm : manifestQuotesOf (some (mkNextManifest cfg [q])) = [(q.id, entryOf cfg q)] := rfl
  rw [hm, List.filter_cons]
  simp [hlook]

/-- C3: with everything else fixed, changing a record's quoted text changes
its card, wrapper and group-item fingerprints — so against the previous
run's manifest its card, wrapper and group all become dirty; changing only
its title leaves the card fingerprint (and the card's dirty set) unchanged
but changes the wrapper and group-item fingerprints; and all three
fingerprints are invariant under permutation of the tags list. -/
theorem fingerprint_sensitivity (cfg : Config) (q : Quote) (hforce : cfg.force = false) :
    (∀ t, t ≠ q.quote →
      (entryOf cfg { q with quote := t }).cardHash ≠ (entryOf cfg q).cardHash ∧
      (entryOf cfg { q with quote := t }).wrapperHash ≠ (entryOf cfg q).wrapperHash ∧
      (entryOf cfg { q with quote := t }).groupItemHash ≠ (entryOf cfg q).groupItemHash ∧
      (executeLoaded cfg [{ q with quote := t }]
          (some (mkNextManifest cfg [q]))).dirtyCards = [q.id] ∧
      (executeLoaded cfg [{ q with quote := t }]
          (some (mkNextManifest cfg [q]))).dirtyWrappers = [q.id] ∧
      (executeLoaded cfg [{ q with quote := t }]
          (some (mkNextManifest cfg [q]))).dirtyGroups = [buildGroupKey q]) ∧
    (∀ t, t ≠ q.articleTitle →
      (entryOf cfg { q with articleTitle := t }).cardHash = (entryOf cfg q).cardHash ∧
      (entryOf cfg { q with articleTitle := t }).wrapperHash ≠ (entryOf cfg q).wrapperHash ∧
      (entryOf cfg { q with articleTitle := t }).groupItemHash ≠
        (entryOf cfg q).groupItemHash ∧
      (executeLoaded cfg [{ q with articleTitle := t }]
          (some (mkNextManifest cfg [q]))).dirtyCards = [] ∧
      (executeLoaded cfg [{ q with articleTitle := t }]
          (some (mkNextManifest cfg [q]))).dirtyWrappers = [q.id] ∧
      (executeLoaded cfg [{ q with articleTitle := t }]
          (some (mkNextManifest cfg [q]))).dirtyGroups = [buildGroupKey q]) ∧
    (∀ tags2, tags2.Perm q.tags →
      (entryOf cfg { q with tags := tags2 }).cardHash = (entryOf cfg q).cardHash ∧
      (entryOf cfg { q with tags := tags2 }).wrapperHash = (entryOf cfg q).wrapperHash ∧
      (entryOf cfg { q with tags := tags2 }).groupItemHash =
        (entryOf cfg q).groupItemHash) := by
  refine ⟨?_, ?_, ?_⟩
  · intro t ht
    have hcard : (entryOf cfg { q with quote := t }).cardHash ≠ (entryOf cfg q).cardHash := by
      simp [entryOf, buildManifestEntry, HashJSON, ht]
    have hwrap : (entryOf cfg { q with quote := t }).wrapperHash ≠
        (entryOf cfg q).wrapperHash := by
      simp [entryOf, buildManifestEntry, HashJSON, ht]
    have hgroup : (entryOf cfg { q with quote := t }).groupItemHash ≠
        (entryOf cfg q).groupItemHash := by
      simp [entryOf, buildManifestEntry, HashJSON, ht]
    have hcd := cardDirty_single cfg q { q with quote := t } hforce rfl
    have hwd := wrapperDirty_single cfg q { q with quote := t } hforce rfl
    have hgd := groupDirtyRec_single cfg q { q with quote := t } hforce rfl
    have hrm := removedQuotesOf_single cfg q { q with quote := t } rfl
    refine ⟨hcard, hwrap, hgroup, ?_, ?_, ?_⟩ <;>
      rw [executeLoaded_cons cfg _ [] _ hforce] <;>
      simp [runBuild, List.filter_cons, dirtyGroupsOf, hcd, hwd, hgd, hrm,
        hcard.symm, hwrap.symm, hgroup.symm, buildGroupKey]
  · intro t ht
    have hcard : (entryOf cfg { q with articleTitle := t }).cardHash =
        (entryOf cfg q).cardHash := rfl
    have hwrap : (entryOf cfg { q with articleTitle := t }).wrapperHash ≠
        (entryOf cfg q).wrapperHash := by
      simp [entryOf, buildManifestEntry, HashJSON, ht]
    have hgroup : (entryOf cfg { q with articleTitle := t }).groupItemHash ≠
        (entryOf cfg q).groupItemHash := by
      simp [entryOf, buildManifestEntry, HashJSON, ht]
    have hcd := cardDirty_single cfg q { q with articleTitle := t } hforce rfl
    have hwd := wrapperDirty_single cfg q { q with articleTitle := t } hforce rfl
    have hgd := groupDirtyRec_single cfg q { q with articleTitle := t } hforce rfl
    have hrm := removedQuotesOf_single cfg q { q with articleTitle := t } rfl
    refine ⟨hcard, hwrap, hgroup, ?_, ?_, ?_⟩ <;>
      rw [executeLoaded_cons cfg _ [] _ hforce] <;>
      simp [runBuild, List.filter_cons, dirtyGroupsOf, hcd, hwd, hgd, hrm,
        hcard, hwrap.symm, hgroup.symm, buildGroupKey]
  · intro tags2 hperm
    have hsort : sortStrings tags2 = sortStrings q.tags := sortStrings_perm_eq hperm
    refine ⟨?_, ?_, ?_⟩ <;> simp [entryOf, buildManifestEntry, HashJSON, hsort]

/-- C3 witness: concrete text change, title change, tag permutation. -/
theorem fingerprint_sensitivity_witness :
    (entryOf cfg0 { sampleQuote with quote := "Other text." }).cardHash ≠
      (entryOf cfg0 sampleQuote).cardHash ∧
    (entryOf cfg0 { sampleQuote with articleTitle := "Other title" }).cardHash =
      (entryOf cfg0 sampleQuote).cardHash ∧
    (entryOf cfg0 { sampleQuote with tags := ["habits", "design"] }).cardHash =
      (entryOf cfg0 sampleQuote).cardHash ∧
    (executeLoaded cfg0 [{ sampleQuote with quote := "Other text." }]
        (some (mkNextManifest cfg0 [sampleQuote]))).dirtyCards = [sampleQuote.id] := by
  have h := fingerprint_sensitivity cfg0 sampleQuote rfl
  have h1 := h.1 "Other text." (by decide)
  have h2 := h.2.1 "Other title" (by decide)
  have h3 := h.2.2 ["habits", "design"] (by decide)
  exact ⟨h1.1, h2.1, h3.1, h1.2.2.2.1⟩

/-! ## Cascading wrapper invalidation (C4) -/

theorem executeLoaded_cons_general (cfg : Config) (q : Quote) (l : List Quote)
    (man0 : Option Manifest) :
    executeLoaded cfg (q :: l) man0 =
      runBuild cfg (q :: l) (if cfg.force then none else man0) := by
  simp [executeLoaded]

/-- C4: if the cache-bust token differs from the one recorded in the
previous manifest, or the wrapper template hash differs, every current
record's wrapper is marked dirty and re-rendered, regardless of per-record
content. -/
theorem wrapper_cascading_invalidation (cfg : Config) (qs : List Quote) (prev : Manifest)
    (hchange : equalStringPtr prev.cardVersion cfg.cardVersion = false ∨
      prev.wrapperTemplateHash ≠ wrapperTemplateHash) :
    (∀ q ∈ qs, q.id ∈ (executeLoaded cfg qs (some prev)).dirtyWrappers) ∧
    (executeLoaded cfg qs (some prev)).wrappersRendered = qs.map Quote.id := by
  have hwd : ∀ q : Quote,
      wrapperDirty cfg (if cfg.force then none else some prev) q = true := by
    intro q
    cases hf : cfg.force
    · rcases hchange with h | h
      · simp [wrapperDirty, cardVersionChanged, prevCardVersionOf, h, hf]
      · simp [wrapperDirty, wrapperTemplateChanged, h, hf]
    · simp [wrapperDirty, wrapperRenderChanged, hf]
  cases qs with
  | nil => simp [executeLoaded_nil, emptyRunOutcome]
  | cons a l =>
    rw [executeLoaded_cons_general]
    have hfilter :
        (a :: l).filter (wrapperDirty cfg (if cfg.force then none else some prev)) =
          a :: l :=
      List.filter_eq_self.mpr (fun r _ => hwd r)
    constructor
    · intro q hq
      simp only [runBuild, hfilter]
      exact List.mem_map_of_mem Quote.id hq
    · simp only [runBuild, hfilter]
      have hall : (a :: l).filter
          (fun q => ((a :: l).map Quote.id).contains q.id) = a :: l :=
        List.filter_eq_self.mpr (fun r hr => by
          have hm : r.id ∈ (a :: l).map Quote.id := List.mem_map_of_mem Quote.id hr
          simp [List.contains]
          simpa using hm)
      rw [hall]

/-- C4 witness: a stale wrapper-template hash forces the single record's
wrapper to re-render. -/
theorem wrapper_cascading_invalidation_witness :
    sampleQuote.id ∈ (executeLoaded cfg0 [sampleQuote]
        (some { mkNextManifest cfg0 [sampleQuote] with
                wrapperTemplateHash := HashStrings ["stale"] })).dirtyWrappers ∧
    (executeLoaded cfg0 [sampleQuote]
        (some { mkNextManifest cfg0 [sampleQuote] with
                wrapperTemplateHash := HashStrings ["stale"] })).wrappersRendered =
      [sampleQuote].map Quote.id := by
  have h := wrapper_cascading_invalidation cfg0 [sampleQuote]
    { mkNextManifest cfg0 [sampleQuote] with wrapperTemplateHash := HashStrings ["stale"] }
    (Or.inr (by decide))
  exact ⟨h.1 sampleQuote (by simp), h.2⟩

/-! ## Removal cleanup (C2) and the group-key-change frame effect (C10) -/

theorem mem_dirtyGroupsOf {cfg : Config} {man : Option Manifest} {qs : List Quote}
    {k : String} :
    k ∈ dirtyGroupsOf cfg man qs ↔
      (∃ q ∈ qs, groupDirtyRec cfg man q = true ∧ buildGroupKey q = k) ∨
      (∃ p ∈ removedQuotesOf cfg man qs, p.2.sourceKey = k) := by
  rw [dirtyGroupsOf, List.mem_dedup, List.mem_append]
  constructor
  · rintro (h | h)
    · obtain ⟨q, hq, hk⟩ := List.mem_map.mp h
      have hq2 := List.mem_filter.mp hq
      exact Or.inl ⟨q, hq2.1, hq2.2, hk⟩
    · obtain ⟨p, hp, hk⟩ := List.mem_map.mp h
      exact Or.inr ⟨p, hp, hk⟩
  · rintro (⟨q, hq, hgd, hk⟩ | ⟨p, hp, hk⟩)
    · exact Or.inl (List.mem_map.mpr ⟨q, List.mem_filter.mpr ⟨hq, hgd⟩, hk⟩)
    · exact Or.inr (List.mem_map.mpr ⟨p, hp, hk⟩)

theorem lookupEntry_nextQuotes_eq_none (cfg : Config) (qs : List Quote) (id : String)
    (h : ∀ q ∈ qs, q.id ≠ id) :
    lookupEntry (nextQuotes cfg qs) id = none := by
  cases hl : lookupEntry (nextQuotes cfg qs) id with
  | none => rfl
  | some v =>
    obtain ⟨q, hq, hid⟩ := (lookupEntry_nextQuotes_isSome cfg qs id).mp (by simp [hl])
    exact absurd hid (h q hq)

/-- C2: an id present in the previous manifest but absent from the current
record set has its card file and wrapper directory deleted
(`removeDeletedQuoteOutputs` runs on exactly the `removedIds`), and the
group named by its stale manifest entry's recorded `SourceKey` is marked
dirty: if that group still has members its aggregation page is regenerated
without the removed record, otherwise its output directory is removed. -/
theorem removal_cleanup (cfg : Config) (qs : List Quote) (prev : Manifest)
    (id : String) (e : QuoteEntry)
    (hforce : cfg.force = false)
    (hmem : (id, e) ∈ prev.quotes)
    (habsent : ∀ q ∈ qs, q.id ≠ id)
    (hne : qs ≠ []) :
    id ∈ (executeLoaded cfg qs (some prev)).removedIds ∧
    e.sourceKey ∈ (executeLoaded cfg qs (some prev)).dirtyGroups ∧
    (groupMembers qs e.sourceKey = [] →
      e.sourceKey ∈ (executeLoaded cfg qs (some prev)).groupsRemoved) ∧
    (groupMembers qs e.sourceKey ≠ [] →
      e.sourceKey ∈ (executeLoaded cfg qs (some prev)).groupsRegenerated) ∧
    (∀ p ∈ (executeLoaded cfg qs (some prev)).groupPages,
      p.1 = e.sourceKey → id ∉ p.2) := by
  cases qs with
  | nil => exact absurd rfl hne
  | cons a l =>
    rw [executeLoaded_cons cfg a l (some prev) hforce]
    have h0 : lookupEntry (nextQuotes cfg (a :: l)) id = none :=
      lookupEntry_nextQuotes_eq_none cfg (a :: l) id habsent
    have hrem : (id, e) ∈ removedQuotesOf cfg (some prev) (a :: l) := by
      rw [removedQuotesOf]
      exact List.mem_filter.mpr ⟨hmem, by simp [h0]⟩
    have hdirty : e.sourceKey ∈ dirtyGroupsOf cfg (some prev) (a :: l) :=
      mem_dirtyGroupsOf.mpr (Or.inr ⟨(id, e), hrem, rfl⟩)
    refine ⟨?_, ?_, ?_, ?_, ?_⟩
    · simp only [runBuild]
      exact List.mem_map_of_mem (fun p => p.1) hrem
    · simpa only [runBuild] using hdirty
    · intro hempty
      simp only [runBuild]
      exact List.mem_filter.mpr ⟨hdirty, by simp [hempty]⟩
    · intro hnonempty
      simp only [runBuild]
      refine List.mem_filter.mpr ⟨hdirty, ?_⟩
      simp only [Bool.not_eq_eq_eq_not, Bool.not_true, Bool.not_eq_true]
      cases hgm : groupMembers (a :: l) e.sourceKey with
      | nil => exact absurd hgm hnonempty
      | cons x xs => simp
    · intro p hp _ hid2
      simp only [runBuild] at hp
      obtain ⟨k, _, hf⟩ := List.mem_filterMap.mp hp
      by_cases hemp : (groupMembers (a :: l) k).isEmpty
      · rw [if_pos hemp] at hf
        exact absurd hf (by simp)
      · rw [if_neg hemp] at hf
        obtain rfl := Option.some.inj hf
        obtain ⟨r, hr, hrid⟩ := List.mem_map.mp hid2
        have hr2 : r ∈ groupMembers (a :: l) k := by
          rw [sortGroupQuotes] at hr
          exact (List.mem_insertionSort _).mp hr
        exact absurd hrid (habsent r (List.mem_of_mem_filter hr2))

/-- C2 witness: removing `gone-id` (whose group has no current members)
deletes its outputs and removes its former group's directory. -/
theorem removal_cleanup_witness :
    "gone-id" ∈ (executeLoaded cfg0 [sampleQuote] (some prevWithGone)).removedIds ∧
    goneEntry.sourceKey ∈ (executeLoaded cfg0 [sampleQuote] (some prevWithGone)).dirtyGroups ∧
    goneEntry.sourceKey ∈ (executeLoaded cfg0 [sampleQuote] (some prevWithGone)).groupsRemoved := by
  have h := removal_cleanup cfg0 [sampleQuote] prevWithGone "gone-id" goneEntry rfl
    (by decide) (by decide) (by decide)
  exact ⟨h.1, h.2.1, h.2.2.1 (by decide)⟩

/-- C10: for a record present in both runs whose group key changed, only
its new group key enters the dirty set; its previous group (the stale
entry's `SourceKey`) stays untouched — neither regenerated nor removed —
provided no other current record dirties that key and no removed record
names it (removal-based cleanup runs only for ids absent from the current
record set). -/
theorem group_key_change_frame (cfg : Config) (qs : List Quote) (prev : Manifest)
    (q : Quote) (e : QuoteEntry)
    (hforce : cfg.force = false)
    (hq : q ∈ qs)
    (hlook : lookupEntry prev.quotes q.id = some e)
    (hchanged : e.sourceKey ≠ buildGroupKey q)
    (hnocur : ∀ r ∈ qs, groupDirtyRec cfg (some prev) r = true →
      buildGroupKey r ≠ e.sourceKey)
    (hnorem : ∀ p ∈ prev.quotes,
      (lookupEntry (nextQuotes cfg qs) p.1).isNone = true → p.2.sourceKey ≠ e.sourceKey) :
    buildGroupKey q ∈ (executeLoaded cfg qs (some prev)).dirtyGroups ∧
    e.sourceKey ∉ (executeLoaded cfg qs (some prev)).dirtyGroups ∧
    e.sourceKey ∉ (executeLoaded cfg qs (some prev)).groupsRegenerated ∧
    e.sourceKey ∉ (executeLoaded cfg qs (some prev)).groupsRemoved ∧
    (∀ p ∈ (executeLoaded cfg qs (some prev)).groupPages, p.1 ≠ e.sourceKey) := by
  cases qs with
  | nil => exact absurd hq (List.not_mem_nil q)
  | cons a l =>
    rw [executeLoaded_cons cfg a l (some prev) hforce]
    have hlook2 : lookupEntry (manifestQuotesOf (some prev)) q.id = some e := hlook
    have hsk : (entryOf cfg q).sourceKey = buildGroupKey q := rfl
    have hgd : groupDirtyRec cfg (some prev) q = true := by
      simp [groupDirtyRec, hlook2, hsk]
      tauto
    have hin : buildGroupKey q ∈ dirtyGroupsOf cfg (some prev) (a :: l) :=
      mem_dirtyGroupsOf.mpr (Or.inl ⟨q, hq, hgd, rfl⟩)
    have hout : e.sourceKey ∉ dirtyGroupsOf cfg (some prev) (a :: l) := by
      intro hmem
      rcases mem_dirtyGroupsOf.mp hmem with ⟨r, hr, hgdr, hkey⟩ | ⟨p, hp, hkey⟩
      · exact hnocur r hr hgdr hkey
      · have hp2 := List.mem_filter.mp hp
        exact hnorem p hp2.1 (by simpa using hp2.2) hkey
    refine ⟨?_, ?_, ?_, ?_, ?_⟩
    · simpa only [runBuild] using hin
    · simpa only [runBuild] using hout
    · intro hmem
      simp only [runBuild] at hmem
      exact hout (List.mem_of_mem_filter hmem)
    · intro hmem
      simp only [runBuild] at hmem
      exact hout (List.mem_of_mem_filter hmem)
    · intro p hp
      simp only [runBuild] at hp
      obtain ⟨k, hk, hf⟩ := List.mem_filterMap.mp hp
      by_cases hemp : (groupMembers (a :: l) k).isEmpty
      · rw [if_pos hemp] at hf
        exact absurd hf (by simp)
      · rw [if_neg hemp] at hf
        obtain rfl := Option.some.inj hf
        intro hkey
        exact hout (hkey ▸ hk)

/-- C10 witness: `sampleQuote` moved from `old.example__post` to
`example.com__article`; the old key is not dirtied. -/
theorem group_key_change_frame_witness :
    buildGroupKey sampleQuote ∈
      (executeLoaded cfg0 [sampleQuote]
        (some (mkNextManifest cfg0 [oldGroupQuote]))).dirtyGroups ∧
    (entryOf cfg0 oldGroupQuote).sourceKey ∉
      (executeLoaded cfg0 [sampleQuote]
        (some (mkNextManifest cfg0 [oldGroupQuote]))).dirtyGroups ∧
    (entryOf cfg0 oldGroupQuote).sourceKey ∉
      (executeLoaded cfg0 [sampleQuote]
        (some (mkNextManifest cfg0 [oldGroupQuote]))).groupsRemoved := by
  have h := group_key_change_frame cfg0 [sampleQuote] (mkNextManifest cfg0 [oldGroupQuote])
    sampleQuote (entryOf cfg0 oldGroupQuote) rfl (by decide) (by decide) (by decide)
    (by decide) (by decide)
  exact ⟨h.1, h.2.1, h.2.2.2.1⟩

/-! ## Text-fit renderer (C5) -/

/-- C5: the renderer always succeeds with a fixed 1200 by 628 canvas; it
chooses a size from the descending candidate list 72, 70, …, 36 — when some
candidate fits, the chosen size fits and is the largest fitting candidate;
when none fits, it falls back to the minimum size 36 — and the output lines
are the word-wrap of the display text at the chosen size. -/
theorem render_text_fit (wrap : Nat → String → List String) (text : String) :
    (RenderQuoteCard wrap text).width = 1200 ∧
    (RenderQuoteCard wrap text).height = 628 ∧
    (RenderQuoteCard wrap text).fontSize ∈ candidateFontSizes ∧
    ((∃ s ∈ candidateFontSizes, fitsAt wrap (displayOf text) s = true) →
      fitsAt wrap (displayOf text) (RenderQuoteCard wrap text).fontSize = true ∧
      ∀ s ∈ candidateFontSizes, fitsAt wrap (displayOf text) s = true →
        s ≤ (RenderQuoteCard wrap text).fontSize) ∧
    ((∀ s ∈ candidateFontSizes, fitsAt wrap (displayOf text) s = false) →
      (RenderQuoteCard wrap text).fontSize = 36) ∧
    (RenderQuoteCard wrap text).lines =
      wrappedLines wrap (displayOf text) (RenderQuoteCard wrap text).fontSize := by
  cases hfind : candidateFontSizes.find? (fitsAt wrap (displayOf text)) with
  | some s =>
    have hr : RenderQuoteCard wrap text =
        { width := CardWidth, height := CardHeight, fontSize := s
        , lines := wrappedLines wrap (displayOf text) s } := by
      rw [RenderQuoteCard, hfind]
    rw [hr]
    refine ⟨rfl, rfl, List.mem_of_find?_eq_some hfind, ?_, ?_, rfl⟩
    · intro _
      exact ⟨List.find?_some hfind,
        fun s2 hs2 hfit => find?_desc_ge (by decide) hfind s2 hs2 hfit⟩
    · intro hall
      have hfit := List.find?_some hfind
      rw [hall s (List.mem_of_find?_eq_some hfind)] at hfit
      exact absurd hfit (by simp)
  | none =>
    have hr : RenderQuoteCard wrap text =
        { width := CardWidth, height := CardHeight, fontSize := 36
        , lines := wrappedLines wrap (displayOf text) 36 } := by
      rw [RenderQuoteCard, hfind]
    rw [hr]
    refine ⟨rfl, rfl, (by decide : (36 : Nat) ∈ candidateFontSizes), ?_, fun _ => rfl, rfl⟩
    rintro ⟨s, hs, hfit⟩
    have := List.find?_eq_none.mp hfind s hs
    simp [hfit] at this

/-- C5 witness: a short text picks the maximum size 72; an overlong text
still renders (fixed canvas) at the minimum size 36. -/
theorem render_text_fit_witness :
    (RenderQuoteCard wrapOneLine "hi").fontSize = 72 ∧
    (RenderQuoteCard wrapManyLines "hi").fontSize = 36 ∧
    (RenderQuoteCard wrapManyLines "hi").width = 1200 ∧
    (RenderQuoteCard wrapManyLines "hi").height = 628 := by
  have h1 := render_text_fit wrapOneLine "hi"
  have h2 := render_text_fit wrapManyLines "hi"
  refine ⟨?_, ?_, h2.1, h2.2.1⟩
  · have hmax := (h1.2.2.2.1 ⟨72, by decide, by decide⟩).2 72 (by decide) (by decide)
    have hmem := h1.2.2.1
    have hle : (RenderQuoteCard wrapOneLine "hi").fontSize ≤ 72 := by
      have hall : ∀ s ∈ candidateFontSizes, s ≤ 72 := by decide
      exact hall _ hmem
    exact le_antisymm hle hmax
  · exact h2.2.2.2.2.1 (by decide)

/-! ## Group-page ordering (C9) -/

instance : IsTotal Quote quoteByCreatedDesc :=
  ⟨fun a b => le_total (timeValue b.createdAt) (timeValue a.createdAt)⟩

instance : IsTrans Quote quoteByCreatedDesc :=
  ⟨fun _ _ _ h₁ h₂ => le_trans h₂ h₁⟩

/-- C9: the group-page order is a permutation of the members, sorted by
`createdAt` descending with missing timestamps valued 0 (oldest), and
records with equal sort values keep their relative input order (the sort is
stable: filtering by any fixed sort value is unchanged). -/
theorem group_page_ordering (l : List Quote) :
    (sortGroupQuotes l).Perm l ∧
    (sortGroupQuotes l).Pairwise
      (fun a b => timeValue b.createdAt ≤ timeValue a.createdAt) ∧
    (∀ t : Int, (sortGroupQuotes l).filter (fun q => timeValue q.createdAt = t) =
      l.filter (fun q => timeValue q.createdAt = t)) ∧
    timeValue none = 0 := by
  refine ⟨List.perm_insertionSort _ l, ?_, ?_, rfl⟩
  · exact List.sorted_insertionSort quoteByCreatedDesc l
  · intro t
    rw [sortGroupQuotes]
    exact filter_insertionSort quoteByCreatedDesc
      (fun q => timeValue q.createdAt = t)
      (fun a b ha hb => by
        have ha2 : timeValue a.createdAt = t := by simpa using ha
        have hb2 : timeValue b.createdAt = t := by simpa using hb
        show timeValue b.createdAt ≤ timeValue a.createdAt
        rw [ha2, hb2])
      l

/-- C9 witness: an undated record sorts after a dated one, and the sort is a
permutation. -/
theorem group_page_ordering_witness :
    sortGroupQuotes [sampleQuote2, sampleQuote] = [sampleQuote, sampleQuote2] ∧
    (sortGroupQuotes [sampleQuote2, sampleQuote]).Perm [sampleQuote2, sampleQuote] := by
  have h := group_page_ordering [sampleQuote2, sampleQuote]
  exact ⟨by decide, h.1⟩

/-! ## Manifest load (C7) -/

/-- C7 counterexample: `manifest.Load` on a missing file succeeds carrying
no manifest at all (Go returns `nil, nil`), not an empty-but-valid
manifest value. -/
theorem manifest_load_missing_counterexample :
    ManifestLoad none (fun _ => none) = Except.ok none ∧
    (Except.ok (none : Option Manifest) : Except String (Option Manifest)) ≠
      Except.ok (some emptyManifest) := by
  exact ⟨rfl, by simp⟩

/-- C7 (amended): `manifest.Load` on a missing file returns success with no
manifest (absent, which `Execute` treats as a full rebuild); it returns an
error exactly when the file exists but fails to decode; and on a decode
failure `Execute` returns that error immediately, producing no outcome (no
output-tree mutation, no manifest write). -/
theorem manifest_load_amended (dec : String → Option Manifest) :
    ManifestLoad none dec = Except.ok none ∧
    (∀ data m, dec data = some m → ManifestLoad (some data) dec = Except.ok (some m)) ∧
    (∀ data, dec data = none →
      ManifestLoad (some data) dec = Except.error "unmarshal manifest" ∧
      ∀ cfg qs, Execute cfg qs (some data) dec = Except.error "unmarshal manifest") := by
  refine ⟨rfl, ?_, ?_⟩
  · intro data m h
    simp [ManifestLoad, h]
  · intro data h
    exact ⟨by simp [ManifestLoad, h], fun cfg qs => by simp [Execute, ManifestLoad, h]⟩

/-- C7 witness: a decoder that always fails, exercised on a missing and on a
corrupt manifest file. -/
theorem manifest_load_amended_witness :
    ManifestLoad none (fun _ => none) = Except.ok none ∧
    ManifestLoad (some "corrupt") (fun _ => none) = Except.error "unmarshal manifest" ∧
    Execute cfg0 [sampleQuote] (some "corrupt") (fun _ => none) =
      Except.error "unmarshal manifest" := by
  have h := manifest_load_amended (fun _ => none)
  exact ⟨h.1, (h.2.2 "corrupt" rfl).1, (h.2.2 "corrupt" rfl).2 cfg0 [sampleQuote]⟩

/-! ## URL normalisation (C8) -/

theorem trimOneTrailingSlash_of_no_slash {s : String} (h : endsWithSlash s = false) :
    trimOneTrailingSlash s = s := by
  rw [trimOneTrailingSlash]
  rw [endsWithSlash] at h
  cases hrev : s.toList.reverse with
  | nil => rfl
  | cons c rest =>
    rw [hrev] at h
    by_cases hc : c = '/'
    · rw [hc] at h
      simp at h
    · simp [hc]

theorem trimOneTrailingSlash_append_slash (s : String) :
    trimOneTrailingSlash (s ++ "/") = s := by
  rw [trimOneTrailingSlash]
  have hdata : (s ++ "/").toList = s.toList ++ ['/'] := by
    simp [String.toList]
  rw [hdata, List.reverse_append]
  simp [List.asString]

/-- C8 counterexample: a URL carrying a query string does not normalize to
scheme+host+path — the query is preserved by `normalizeURL`. -/
theorem normalize_url_counterexample :
    normalizeURL (urlString urlWithQuery) = some "https://example.com/a?x=1" ∧
    "https://example.com/a?x=1" ≠
      urlWithQuery.scheme ++ "://" ++ urlWithQuery.host ++ urlWithQuery.path := by
  exact ⟨by decide, by decide⟩

/-- C8 (amended): normalization strips the fragment and one trailing slash
from the end of the URL string and preserves everything else, including the
query; two URLs differing only by a fragment, or only by a trailing slash
when no query follows the path, normalize identically and hence yield the
same inferred domain, article slug and group key. -/
theorem normalize_url_amended (u : GoURL) :
    (∀ f, normalizeParsedURL { u with fragment := f } = normalizeParsedURL u) ∧
    (endsWithSlash (urlString { u with fragment := "" }) = false →
      normalizeParsedURL u = urlString { u with fragment := "" }) ∧
    (u.rawQuery = "" → endsWithSlash (urlString { u with fragment := "" }) = false →
      normalizeParsedURL { u with path := u.path ++ "/" } = normalizeParsedURL u) ∧
    (∀ u2 : GoURL, normalizeParsedURL u = normalizeParsedURL u2 →
      inferDomainAndSlug (normalizeParsedURL u) =
        inferDomainAndSlug (normalizeParsedURL u2) ∧
      groupKeyOfNormalizedURL (normalizeParsedURL u) =
        groupKeyOfNormalizedURL (normalizeParsedURL u2)) := by
  refine ⟨fun f => rfl, ?_, ?_, ?_⟩
  · intro h
    rw [normalizeParsedURL, trimOneTrailingSlash_of_no_slash h]
  · intro hq h
    have hser : urlString { u with path := u.path ++ "/", fragment := "" } =
        urlString { u with fragment := "" } ++ "/" := by
      simp [urlString, hq, String.append_assoc]
    rw [normalizeParsedURL, hser, trimOneTrailingSlash_append_slash,
      normalizeParsedURL, trimOneTrailingSlash_of_no_slash h]
  · intro u2 h
    exact ⟨by rw [h], by rw [h]⟩

/-- C8 witness: fragment stripping, query preservation, and trailing-slash
collapse at concrete URLs. -/
theorem normalize_url_amended_witness :
    normalizeParsedURL { urlWithQuery with fragment := "frag" } =
      normalizeParsedURL urlWithQuery ∧
    normalizeParsedURL urlWithQuery = "https://example.com/a?x=1" ∧
    normalizeParsedURL { urlPlain with path := urlPlain.path ++ "/" } =
      normalizeParsedURL urlPlain ∧
    inferDomainAndSlug (normalizeParsedURL urlPlain) = ("example.com", "a") := by
  have h := normalize_url_amended urlWithQuery
  have h2 := normalize_url_amended urlPlain
  refine ⟨h.1 "frag", ?_, h2.2.2.1 (by decide) (by decide), by decide⟩
  have hb := h.2.1 (by decide)
  rw [hb]
  decide

/-! ## Content loader validation (C6) -/

/-- C6: evaluating the `quotes.Load` validation loop at a record whose
required `quote` field is missing: the fatal error is reported, but the
invalid record is NOT excluded from the returned record list — it is
returned with an empty `quote` field.  (The sibling implementation
`render.mjs: loadQuotes` and the specification both exclude it.) -/
theorem loader_returns_invalid_record :
    (loadCore (fun s => s) (fun _ => none) [missingQuoteFile]).errors =
      ["quotes/bad.md: missing required field \"quote\"."] ∧
    (loadCore (fun s => s) (fun _ => none) [missingQuoteFile]).quotes.map Quote.id =
      ["q1"] ∧
    (loadCore (fun s => s) (fun _ => none) [missingQuoteFile]).quotes.map Quote.quote =
      [""] := by
  exact ⟨by decide, by decide, by decide⟩

end QuoteCards
